/-
Verification of the algo-trading core: risk sizer (app/risk/manager.py),
paper broker fill model (app/broker/paper_broker.py) and the backtest
replay engine with its statistics (app/backtesting/engine.py).

Modelling conventions:
* Python floats are modelled as exact rationals (ℚ); `round(x, n)` is
  modelled as round-half-to-even at n decimal places (`roundTo`).
* Python dicts keyed by symbol are modelled as association lists with
  insertion-order update/erase operations mirroring dict semantics.
* The random `order_id` (uuid4) carries no trading semantics and is
  omitted from the `OrderResult` record.
* Formatted rejection messages keep their distinctive text with the
  interpolated numbers elided.
-/
import Mathlib

namespace AlgoTrading

/-! ### Rounding (Python `round(x, n)`, half-to-even) -/

/-- Round a rational to the nearest integer, ties to even
(the behaviour of Python's builtin `round`). -/
def roundHalfEven (x : ℚ) : ℤ :=
  let f := ⌊x⌋
  let r := x - (f : ℚ)
  if r < 1/2 then f
  else if 1/2 < r then f + 1
  else if f % 2 = 0 then f else f + 1

/-- `round(x, n)` from Python: round to `n` decimal places. -/
def roundTo (n : ℕ) (x : ℚ) : ℚ :=
  (roundHalfEven (x * (10 : ℚ) ^ n) : ℚ) / (10 : ℚ) ^ n

/-- Python `str.upper()` modelled structurally. (Core's `String.toUpper`
is defined by well-founded recursion and does not reduce definitionally,
so a structural equivalent is used for the embedding.) -/
def pyUpper (s : String) : String := ⟨s.data.map Char.toUpper⟩

/-! ### Risk sizer — `RiskManager.assess_trade` (app/risk/manager.py) -/

/-- `RiskAssessment` dataclass. -/
structure RiskAssessment where
  approved : Bool
  position_size : ℚ
  stop_loss_price : ℚ
  risk_amount : ℚ
  reason : String
deriving DecidableEq, Repr

/-- Configuration/state of `RiskManager` (constructor fields). -/
structure RiskManager where
  capital : ℚ
  risk_per_trade : ℚ
  stop_loss_pct : ℚ
  max_position_pct : ℚ
  max_open_positions : ℕ
  max_total_exposure : ℚ
deriving DecidableEq, Repr

/-- `RiskManager.assess_trade`, line for line from app/risk/manager.py. -/
def assess_trade (rm : RiskManager) (price : ℚ) (side : String)
    (current_exposure : ℚ) (open_position_count : ℕ) : RiskAssessment :=
  if price ≤ 0 then
    ⟨false, 0, 0, 0, "Invalid price"⟩
  else if rm.max_open_positions ≤ open_position_count then
    ⟨false, 0, 0, 0, "Max open positions reached"⟩
  else
    let exposure_ratio := if 0 < rm.capital then current_exposure / rm.capital else 1
    if rm.max_total_exposure ≤ exposure_ratio then
      ⟨false, 0, 0, 0, "Total exposure exceeds limit"⟩
    else
      let risk_amount := rm.capital * rm.risk_per_trade
      let stop_distance := price * rm.stop_loss_pct
      let position_size₀ := if 0 < stop_distance then risk_amount / stop_distance else 0
      let max_position_value := rm.capital * rm.max_position_pct
      let max_qty := if 0 < price then max_position_value / price else 0
      let position_size₁ := min position_size₀ max_qty
      let remaining := rm.max_total_exposure * rm.capital - current_exposure
      let max_remaining_qty := if 0 < price then remaining / price else 0
      let position_size := max (min position_size₁ max_remaining_qty) 0
      if position_size ≤ 0 then
        ⟨false, 0, 0, 0, "Computed position size is zero"⟩
      else
        let stop_loss_price :=
          if pyUpper side = "BUY" then price * (1 - rm.stop_loss_pct)
          else price * (1 + rm.stop_loss_pct)
        ⟨true, roundTo 6 position_size, roundTo 4 stop_loss_price,
          roundTo 2 risk_amount, "Trade approved"⟩

/-- Reference function written from the spec's words for the risk-sizer
contract (§4.1), amended to account for the decimal rounding the code
applies to the fields of an approved assessment: the ordered rejection
checks, then the minimum of the three candidate sizes floored at 0,
rounded to 6 places in the returned record (stop-loss price to 4 places,
risk amount to 2 places). -/
def assess_trade_spec (rm : RiskManager) (price : ℚ) (side : String)
    (current_exposure : ℚ) (open_position_count : ℕ) : RiskAssessment :=
  if price ≤ 0 then ⟨false, 0, 0, 0, "Invalid price"⟩
  else if rm.max_open_positions ≤ open_position_count then
    ⟨false, 0, 0, 0, "Max open positions reached"⟩
  else if rm.max_total_exposure ≤ current_exposure / rm.capital then
    ⟨false, 0, 0, 0, "Total exposure exceeds limit"⟩
  else
    let riskSize := rm.capital * rm.risk_per_trade / (price * rm.stop_loss_pct)
    let capSize := rm.capital * rm.max_position_pct / price
    let remainSize := (rm.max_total_exposure * rm.capital - current_exposure) / price
    let size := max (min (min riskSize capSize) remainSize) 0
    if size ≤ 0 then ⟨false, 0, 0, 0, "Computed position size is zero"⟩
    else
      ⟨true, roundTo 6 size,
        roundTo 4 (if pyUpper side = "BUY" then price * (1 - rm.stop_loss_pct)
                   else price * (1 + rm.stop_loss_pct)),
        roundTo 2 (rm.capital * rm.risk_per_trade), "Trade approved"⟩

/-! ### Paper broker — `PaperBroker` (app/broker/paper_broker.py) -/

/-- `_OpenPosition`: internal mutable position record. -/
structure OpenPosition where
  symbol : String
  side : String
  quantity : ℚ
  entry_price : ℚ
  current_price : ℚ
  stop_loss : Option ℚ
deriving DecidableEq, Repr

/-- `OrderResult` (app/broker/base.py), the uuid `order_id` omitted. -/
structure OrderResult where
  symbol : String
  side : String
  quantity : ℚ
  price : ℚ
  status : String
  commission : ℚ
  message : String
deriving DecidableEq, Repr

/-- Mutable state of a `PaperBroker` instance: configuration fields plus
cash, the symbol-keyed position dict and the trade log. -/
structure Broker where
  cash : ℚ
  initial_capital : ℚ
  commission_pct : ℚ
  slippage_pct : ℚ
  positions : List (String × OpenPosition)
  trade_log : List OrderResult
deriving DecidableEq, Repr

/-- Python-dict assignment `d[k] = v` on an association list: replace the
first binding of `k` in place, else append at the end (insertion order). -/
def dictSet {β : Type} : List (String × β) → String → β → List (String × β)
  | [], k, v => [(k, v)]
  | (k', v') :: rest, k, v =>
      if k' = k then (k, v) :: rest else (k', v') :: dictSet rest k v

/-- Python-dict deletion `del d[k]` on an association list (removes the
first binding of `k`). -/
def dictErase {β : Type} : List (String × β) → String → List (String × β)
  | [], _ => []
  | (k', v') :: rest, k =>
      if k' = k then rest else (k', v') :: dictErase rest k

/-- `PaperBroker.place_order`: fill immediately at the supplied price with
slippage and commission. Returns the `OrderResult` together with the
post-call broker state. -/
def place_order (b : Broker) (symbol side₀ : String) (quantity price : ℚ)
    (stop_loss : Option ℚ) : OrderResult × Broker :=
  let side := pyUpper side₀
  let fill_price :=
    if side = "BUY" then price * (1 + b.slippage_pct)
    else price * (1 - b.slippage_pct)
  let cost := fill_price * quantity
  let commission := cost * b.commission_pct
  if side = "BUY" then
    let total_cost := cost + commission
    if b.cash < total_cost then
      (⟨symbol, side, 0, fill_price, "REJECTED", 0, "Insufficient funds"⟩, b)
    else
      let cash := b.cash - total_cost
      let positions :=
        match b.positions.lookup symbol with
        | some pos =>
            let new_qty := pos.quantity + quantity
            dictSet b.positions symbol
              { pos with
                entry_price :=
                  (pos.entry_price * pos.quantity + fill_price * quantity) / new_qty
                quantity := new_qty
                stop_loss := stop_loss }
        | none =>
            b.positions ++
              [(symbol, ⟨symbol, "BUY", quantity, fill_price, fill_price, stop_loss⟩)]
      let result : OrderResult :=
        ⟨symbol, side, quantity, roundTo 4 fill_price, "FILLED",
          roundTo 4 commission, "Order filled"⟩
      (result, { b with cash := cash, positions := positions,
                        trade_log := b.trade_log ++ [result] })
  else
    match b.positions.lookup symbol with
    | none =>
        (⟨symbol, side, 0, fill_price, "REJECTED", 0, "No open position"⟩, b)
    | some pos =>
        let sell_qty := min quantity pos.quantity
        let proceeds := fill_price * sell_qty - commission
        let cash := b.cash + proceeds
        let residual := pos.quantity - sell_qty
        let positions :=
          if residual ≤ 1 / 1000000000 then dictErase b.positions symbol
          else dictSet b.positions symbol { pos with quantity := residual }
        let result : OrderResult :=
          ⟨symbol, side, quantity, roundTo 4 fill_price, "FILLED",
            roundTo 4 commission, "Order filled"⟩
        (result, { b with cash := cash, positions := positions,
                          trade_log := b.trade_log ++ [result] })

/-- `PaperBroker.close_position`: full-quantity SELL at the given price. -/
def close_position (b : Broker) (symbol : String) (price : ℚ) :
    OrderResult × Broker :=
  match b.positions.lookup symbol with
  | none =>
      (⟨symbol, "SELL", 0, price, "REJECTED", 0, "No open position"⟩, b)
  | some pos => place_order b symbol "SELL" pos.quantity price none

/-- A broker API call: either `place_order` or `close_position`. -/
inductive BrokerOp where
  | place (symbol side : String) (quantity price : ℚ) (stop_loss : Option ℚ)
  | close (symbol : String) (price : ℚ)
deriving DecidableEq, Repr

/-- Apply one API call to the broker state, discarding the order result. -/
def applyOp (b : Broker) : BrokerOp → Broker
  | .place symbol side quantity price sl =>
      (place_order b symbol side quantity price sl).2
  | .close symbol price => (close_position b symbol price).2

/-- Apply a sequence of API calls left to right. -/
def applyOps (b : Broker) (ops : List BrokerOp) : Broker :=
  ops.foldl applyOp b

/-- The requested quantity of a `place` call is positive (`close` calls
carry no quantity). -/
def opQtyPos : BrokerOp → Prop
  | .place _ _ quantity _ _ => 0 < quantity
  | .close _ _ => True

instance : DecidablePred opQtyPos := fun op => by
  cases op <;> simp [opQtyPos] <;> infer_instance

/-- The position-map invariants of §3: symbol keys are pairwise distinct
(at most one open position per symbol) and every existing entry has
positive quantity. -/
def PosInv (b : Broker) : Prop :=
  (b.positions.map Prod.fst).Nodup ∧ ∀ pr ∈ b.positions, 0 < pr.2.quantity

instance : DecidablePred PosInv := fun b => by
  unfold PosInv; infer_instance

/-! ### Backtest replay engine — `BacktestEngine.run` (app/backtesting/engine.py) -/

/-- Directional signal (app/strategies/base.py). -/
inductive Signal where
  | BUY
  | SELL
  | HOLD
deriving DecidableEq, Repr

/-- One input bar of the replay: timestamp (ISO string) and close price.
Only these two fields of an OHLCV row are read by `BacktestEngine.run`. -/
structure Bar where
  ts : String
  close : ℚ
deriving DecidableEq, Repr

/-- `BacktestTrade` dataclass. -/
structure BacktestTrade where
  symbol : String
  side : String
  entry_price : ℚ
  exit_price : ℚ
  quantity : ℚ
  entry_time : String
  exit_time : String
  pnl : ℚ
  commission : ℚ
  return_pct : ℚ
deriving DecidableEq, Repr

/-- Engine configuration (`BacktestEngine.__init__` fields). -/
structure BTConfig where
  initial_capital : ℚ
  commission_pct : ℚ
  slippage_pct : ℚ
  risk_per_trade : ℚ
  stop_loss_pct : ℚ
deriving DecidableEq, Repr

/-- One recorded equity-curve point. -/
structure EquityPoint where
  date : String
  equity : ℚ
deriving DecidableEq, Repr

/-- Running state of the replay loop in `BacktestEngine.run`. -/
structure BTState where
  capital : ℚ
  position_qty : ℚ
  entry_price : ℚ
  entry_time : String
  trades : List BacktestTrade
  equity_curve : List EquityPoint
deriving DecidableEq, Repr

/-- Initial replay state (`capital = initial_capital`, flat). -/
def initBT (cap : ℚ) : BTState := ⟨cap, 0, 0, "", [], []⟩

/-- Signal lookup for a bar timestamp: the engine builds a dict keyed by
`timestamp.isoformat()` (later signals overwrite earlier ones), and each
bar looks itself up with default HOLD. -/
def sigFor (sigs : List (String × Signal)) (ts : String) : Signal :=
  match (sigs.filter (fun p => p.1 == ts)).getLast? with
  | some p => p.2
  | none => .HOLD

/-- Exit the open long position at `close` with slippage and commission:
the common body of the stop-loss exit, the SELL-signal exit and the final
liquidation (identical code at the three sites in `run`). -/
def sellExit (cfg : BTConfig) (symbol : String) (st : BTState) (close : ℚ)
    (ts : String) : BTState :=
  let exit_price := close * (1 - cfg.slippage_pct)
  let commission := exit_price * st.position_qty * cfg.commission_pct
  let pnl := (exit_price - st.entry_price) * st.position_qty - commission
  let ret_pct :=
    if st.entry_price = 0 then 0
    else (exit_price - st.entry_price) / st.entry_price
  { st with
    trades := st.trades ++
      [⟨symbol, "BUY", roundTo 4 st.entry_price, roundTo 4 exit_price,
        roundTo 6 st.position_qty, st.entry_time, ts, roundTo 2 pnl,
        roundTo 2 commission, roundTo 6 ret_pct⟩]
    capital := st.capital + pnl
    position_qty := 0
    entry_price := 0 }

/-- The BUY-signal entry branch of `run`: size the position from running
capital (risk amount over stop distance, capped at 95% of capital), then
debit commission and open the long if the size is positive. -/
def buyEntry (cfg : BTConfig) (st : BTState) (ts : String) (close : ℚ) :
    BTState :=
  let buy_price := close * (1 + cfg.slippage_pct)
  let risk_amount := st.capital * cfg.risk_per_trade
  let stop_dist := buy_price * cfg.stop_loss_pct
  let qty₀ := if 0 < stop_dist then risk_amount / stop_dist else 0
  let max_qty := if 0 < buy_price then st.capital * (95 / 100) / buy_price else 0
  let qty := min qty₀ max_qty
  if 0 < qty then
    let commission := buy_price * qty * cfg.commission_pct
    { st with
      capital := st.capital - commission
      position_qty := qty
      entry_price := buy_price
      entry_time := ts }
  else st

/-- One bar's stop-loss check followed by signal handling (lines 112–164
of `run`), before the equity mark. -/
def tradePhase (cfg : BTConfig) (symbol : String) (st : BTState)
    (ts : String) (close : ℚ) (sig : Signal) : BTState :=
  let st₁ :=
    if 0 < st.position_qty ∧ close ≤ st.entry_price * (1 - cfg.stop_loss_pct)
    then sellExit cfg symbol st close ts
    else st
  match sig with
  | .BUY => if st₁.position_qty = 0 then buyEntry cfg st₁ ts close else st₁
  | .SELL => if 0 < st₁.position_qty then sellExit cfg symbol st₁ close ts else st₁
  | .HOLD => st₁

/-- The equity mark of a state at a close price:
`capital + (position_qty × close if LONG else 0)`. -/
def markOf (st : BTState) (close : ℚ) : ℚ :=
  st.capital + (if 0 < st.position_qty then st.position_qty * close else 0)

/-- One full iteration of the replay loop: signal lookup, trade phase,
then append the (rounded) equity mark for this bar. -/
def stepBar (cfg : BTConfig) (symbol : String) (sigs : List (String × Signal))
    (st : BTState) (b : Bar) : BTState :=
  let st₂ := tradePhase cfg symbol st b.ts b.close (sigFor sigs b.ts)
  { st₂ with
    equity_curve := st₂.equity_curve ++ [⟨b.ts, roundTo 2 (markOf st₂ b.close)⟩] }

/-- The replay loop of `BacktestEngine.run` over a bar series. -/
def replayBars (cfg : BTConfig) (symbol : String)
    (sigs : List (String × Signal)) (st : BTState) (bars : List Bar) : BTState :=
  bars.foldl (stepBar cfg symbol sigs) st

/-! ### Trade statistics — `BacktestEngine._compute_stats` (lines 220–226) -/

/-- Winning trades: realized PnL strictly positive. -/
def winsOf (trades : List BacktestTrade) : List BacktestTrade :=
  trades.filter (fun t => decide (0 < t.pnl))

/-- Losing trades: realized PnL ≤ 0 (zero PnL counts as a loss). -/
def lossesOf (trades : List BacktestTrade) : List BacktestTrade :=
  trades.filter (fun t => decide (t.pnl ≤ 0))

/-- Gross winning PnL. -/
def totalWinPnl (trades : List BacktestTrade) : ℚ :=
  ((winsOf trades).map (fun t => t.pnl)).sum

/-- Gross absolute losing PnL. -/
def totalLossPnl (trades : List BacktestTrade) : ℚ :=
  ((lossesOf trades).map (fun t => |t.pnl|)).sum

/-- Profit factor as computed by `_compute_stats`: the win/loss PnL ratio
when the total absolute losing PnL is positive, else the sentinel 9999.99. -/
def profit_factor (trades : List BacktestTrade) : ℚ :=
  if 0 < totalLossPnl trades then totalWinPnl trades / totalLossPnl trades
  else 9999.99

/-! ### Supporting lemmas: association-list dictionary operations -/

/-- Lookup misses exactly the keys that are absent. -/
theorem lookup_eq_none_iff {β : Type} (ps : List (String × β)) (k : String) :
    ps.lookup k = none ↔ k ∉ ps.map Prod.fst := by
  induction ps with
  | nil => simp
  | cons hd tl ih =>
      obtain ⟨k', v'⟩ := hd
      by_cases h : k = k'
      · subst h; simp [List.lookup_cons]
      · simp [List.lookup_cons, beq_false_of_ne h, ih, h]

/-- A successful lookup returns a binding of the list. -/
theorem mem_of_lookup_eq_some {β : Type} {ps : List (String × β)} {k : String}
    {v : β} (h : ps.lookup k = some v) : (k, v) ∈ ps := by
  induction ps with
  | nil => simp at h
  | cons hd tl ih =>
      obtain ⟨k', v'⟩ := hd
      by_cases hk : k = k'
      · subst hk; simp [List.lookup_cons] at h; simp [h]
      · rw [List.lookup_cons] at h
        simp [beq_false_of_ne hk] at h
        exact List.mem_cons_of_mem _ (ih h)

/-- A successful lookup means the key is present. -/
theorem mem_keys_of_lookup_eq_some {β : Type} {ps : List (String × β)}
    {k : String} {v : β} (h : ps.lookup k = some v) : k ∈ ps.map Prod.fst :=
  List.mem_map.mpr ⟨(k, v), mem_of_lookup_eq_some h, rfl⟩

/-- Looking up a key just assigned returns the assigned value. -/
theorem lookup_dictSet_self {β : Type} (ps : List (String × β)) (k : String)
    (v : β) : (dictSet ps k v).lookup k = some v := by
  induction ps with
  | nil => simp [dictSet, List.lookup_cons]
  | cons hd tl ih =>
      obtain ⟨k', v'⟩ := hd
      by_cases h : k' = k
      · subst h; simp [dictSet, List.lookup_cons]
      · rw [dictSet, if_neg h, List.lookup_cons]
        simp [beq_false_of_ne (Ne.symm h), ih]

/-- Every binding after an assignment is the new one or an old one. -/
theorem mem_dictSet {β : Type} {ps : List (String × β)} {k : String} {v : β}
    {pr : String × β} (h : pr ∈ dictSet ps k v) : pr = (k, v) ∨ pr ∈ ps := by
  induction ps with
  | nil => simpa [dictSet] using h
  | cons hd tl ih =>
      obtain ⟨k', v'⟩ := hd
      by_cases hk : k' = k
      · subst hk; simp [dictSet] at h
        rcases h with h | h
        · exact Or.inl (by simp [h])
        · exact Or.inr (List.mem_cons_of_mem _ h)
      · rw [dictSet, if_neg hk] at h
        rcases List.mem_cons.mp h with h | h
        · exact Or.inr (by simp [h])
        · rcases ih h with h' | h'
          · exact Or.inl h'
          · exact Or.inr (List.mem_cons_of_mem _ h')

/-- Assigning an existing key keeps the key list unchanged. -/
theorem keys_dictSet_of_mem {β : Type} {ps : List (String × β)} {k : String}
    (v : β) (h : k ∈ ps.map Prod.fst) :
    (dictSet ps k v).map Prod.fst = ps.map Prod.fst := by
  induction ps with
  | nil => simp at h
  | cons hd tl ih =>
      obtain ⟨k', v'⟩ := hd
      by_cases hk : k' = k
      · subst hk; simp [dictSet]
      · rw [dictSet, if_neg hk]
        simp only [List.map_cons]
        rw [ih (by simpa [Ne.symm hk] using h)]

/-- Deletion produces a sublist. -/
theorem dictErase_sublist {β : Type} (ps : List (String × β)) (k : String) :
    List.Sublist (dictErase ps k) ps := by
  induction ps with
  | nil => simp [dictErase]
  | cons hd tl ih =>
      obtain ⟨k', v'⟩ := hd
      by_cases hk : k' = k
      · rw [dictErase, if_pos hk]
        exact List.sublist_cons_self _ _
      · rw [dictErase, if_neg hk]
        exact ih.cons₂ _

/-- After deleting a key from a duplicate-free dictionary, lookup misses. -/
theorem lookup_dictErase_self {β : Type} {ps : List (String × β)} {k : String}
    (hnd : (ps.map Prod.fst).Nodup) : (dictErase ps k).lookup k = none := by
  induction ps with
  | nil => simp [dictErase]
  | cons hd tl ih =>
      obtain ⟨k', v'⟩ := hd
      simp only [List.map_cons, List.nodup_cons] at hnd
      by_cases hk : k' = k
      · subst hk
        rw [dictErase, if_pos rfl, lookup_eq_none_iff]
        exact hnd.1
      · rw [dictErase, if_neg hk, List.lookup_cons, beq_false_of_ne (Ne.symm hk)]
        exact ih hnd.2

/-! ### Supporting lemmas: rounding error bounds -/

/-- Half-even rounding moves a rational by at most one half. -/
theorem abs_roundHalfEven_sub_le (x : ℚ) : |(roundHalfEven x : ℚ) - x| ≤ 1/2 := by
  have h0 : ((⌊x⌋ : ℤ) : ℚ) ≤ x := Int.floor_le x
  have h1 : x < (⌊x⌋ : ℚ) + 1 := Int.lt_floor_add_one x
  unfold roundHalfEven
  simp only []
  split_ifs with hlt hgt hev
  · rw [abs_le]; constructor <;> linarith
  · push_cast; rw [abs_le]; constructor <;> linarith
  · rw [abs_le]; constructor <;> linarith
  · push_cast; rw [abs_le]; constructor <;> linarith

/-- Rounding to n decimal places moves a rational by at most half a unit
in the last place. -/
theorem abs_roundTo_sub_le (n : ℕ) (x : ℚ) :
    |roundTo n x - x| ≤ 1 / (2 * 10 ^ n) := by
  have hpow : (0:ℚ) < 10 ^ n := by positivity
  have h := abs_roundHalfEven_sub_le (x * 10 ^ n)
  unfold roundTo
  rw [div_sub' _ _ _ (ne_of_gt hpow), abs_div, abs_of_pos hpow,
    div_le_div_iff₀ hpow (by positivity)]
  calc |(roundHalfEven (x * 10 ^ n) : ℚ) - 10 ^ n * x| * (2 * 10 ^ n)
      = |(roundHalfEven (x * 10 ^ n) : ℚ) - x * 10 ^ n| * (2 * 10 ^ n) := by
        ring_nf
    _ ≤ (1/2) * (2 * 10 ^ n) := by
        apply mul_le_mul_of_nonneg_right h (by positivity)
    _ = 1 * 10 ^ n := by ring

/-! ### Supporting lemmas: replay-loop state bookkeeping -/

/-- The exit helper appends exactly one closed trade built from the open
position and the exit price with slippage and commission. -/
theorem sellExit_trades (cfg : BTConfig) (symbol : String) (st : BTState)
    (close : ℚ) (ts : String) :
    (sellExit cfg symbol st close ts).trades =
      st.trades ++ [⟨symbol, "BUY", roundTo 4 st.entry_price,
        roundTo 4 (close * (1 - cfg.slippage_pct)), roundTo 6 st.position_qty,
        st.entry_time, ts,
        roundTo 2 ((close * (1 - cfg.slippage_pct) - st.entry_price) * st.position_qty -
          close * (1 - cfg.slippage_pct) * st.position_qty * cfg.commission_pct),
        roundTo 2 (close * (1 - cfg.slippage_pct) * st.position_qty * cfg.commission_pct),
        roundTo 6 (if st.entry_price = 0 then 0
          else (close * (1 - cfg.slippage_pct) - st.entry_price) / st.entry_price)⟩] := rfl

/-- Exiting leaves the engine flat. -/
theorem sellExit_position_qty (cfg : BTConfig) (symbol : String) (st : BTState)
    (close : ℚ) (ts : String) :
    (sellExit cfg symbol st close ts).position_qty = 0 := rfl

/-- The entry branch records no closed trade. -/
theorem buyEntry_trades (cfg : BTConfig) (st : BTState) (ts : String)
    (close : ℚ) : (buyEntry cfg st ts close).trades = st.trades := by
  unfold buyEntry
  simp only []
  split_ifs <;> rfl

/-- Exiting does not touch the equity curve. -/
theorem sellExit_equity_curve (cfg : BTConfig) (symbol : String) (st : BTState)
    (close : ℚ) (ts : String) :
    (sellExit cfg symbol st close ts).equity_curve = st.equity_curve := rfl

/-- Entering does not touch the equity curve. -/
theorem buyEntry_equity_curve (cfg : BTConfig) (st : BTState) (ts : String)
    (close : ℚ) :
    (buyEntry cfg st ts close).equity_curve = st.equity_curve := by
  unfold buyEntry
  simp only []
  split_ifs <;> rfl

/-- The stop-loss check and signal handling never touch the equity curve. -/
theorem tradePhase_equity_curve (cfg : BTConfig) (symbol : String) (st : BTState)
    (ts : String) (close : ℚ) (sig : Signal) :
    (tradePhase cfg symbol st ts close sig).equity_curve = st.equity_curve := by
  unfold tradePhase
  simp only []
  split_ifs <;>
    cases sig <;>
      simp [sellExit_equity_curve, buyEntry_equity_curve]

/-- Each loop iteration appends exactly one equity point: the post-trade
mark of this bar, rounded to two decimals. -/
theorem stepBar_equity_curve (cfg : BTConfig) (symbol : String)
    (sigs : List (String × Signal)) (st : BTState) (b : Bar) :
    (stepBar cfg symbol sigs st b).equity_curve =
      st.equity_curve ++
        [⟨b.ts, roundTo 2 (markOf
          (tradePhase cfg symbol st b.ts b.close (sigFor sigs b.ts)) b.close)⟩] := by
  unfold stepBar
  simp [tradePhase_equity_curve]

/-- The replay appends one equity point per input bar. -/
theorem replayBars_curve_length (cfg : BTConfig) (symbol : String)
    (sigs : List (String × Signal)) (st : BTState) (bars : List Bar) :
    (replayBars cfg symbol sigs st bars).equity_curve.length =
      st.equity_curve.length + bars.length := by
  induction bars generalizing st with
  | nil => simp [replayBars]
  | cons b rest ih =>
      rw [replayBars, List.foldl_cons]
      have := ih (stepBar cfg symbol sigs st b)
      rw [replayBars] at this
      rw [this, stepBar_equity_curve]
      simp
      omega

/-! ### Supporting lemmas: broker position-map invariant preservation -/

/-- One `place_order` call with positive requested quantity preserves the
position-map invariants. -/
theorem place_order_preserves_PosInv (b : Broker) (symbol side : String)
    (q p : ℚ) (sl : Option ℚ) (hb : PosInv b) (hq : 0 < q) :
    PosInv (place_order b symbol side q p sl).2 := by
  obtain ⟨hnd, hpos⟩ := hb
  unfold place_order
  by_cases hside : pyUpper side = "BUY"
  · simp only [hside, reduceIte]
    by_cases hc : b.cash < p * (1 + b.slippage_pct) * q +
        p * (1 + b.slippage_pct) * q * b.commission_pct
    · rw [if_pos hc]; exact ⟨hnd, hpos⟩
    · rw [if_neg hc]
      cases hl : b.positions.lookup symbol with
      | some pos =>
          simp only []
          constructor
          · rw [keys_dictSet_of_mem _ (mem_keys_of_lookup_eq_some hl)]
            exact hnd
          · intro pr hpr
            rcases mem_dictSet hpr with h | h
            · subst h
              have := hpos _ (mem_of_lookup_eq_some hl)
              simp only []
              positivity
            · exact hpos _ h
      | none =>
          simp only []
          constructor
          · rw [List.map_append]
            simp only [List.map_cons, List.map_nil]
            rw [List.nodup_append]
            refine ⟨hnd, List.nodup_singleton _, ?_⟩
            intro a ha hb'
            simp only [List.mem_singleton] at hb'
            subst hb'
            exact ((lookup_eq_none_iff _ _).mp hl) ha
          · intro pr hpr
            rcases List.mem_append.mp hpr with h | h
            · exact hpos _ h
            · simp only [List.mem_singleton] at h
              subst h
              exact hq
  · simp only [if_neg hside]
    cases hl : b.positions.lookup symbol with
    | none => exact ⟨hnd, hpos⟩
    | some pos =>
        simp only []
        by_cases hres : pos.quantity - min q pos.quantity ≤ 1/1000000000
        · rw [if_pos hres]
          constructor
          · exact hnd.sublist ((dictErase_sublist _ _).map _)
          · intro pr hpr
            exact hpos _ ((dictErase_sublist _ _).mem hpr)
        · rw [if_neg hres]
          constructor
          · rw [keys_dictSet_of_mem _ (mem_keys_of_lookup_eq_some hl)]
            exact hnd
          · intro pr hpr
            rcases mem_dictSet hpr with h | h
            · subst h
              have h9 : (0:ℚ) < 1/1000000000 := by norm_num
              have := not_le.mp hres
              simp only []
              linarith
            · exact hpos _ h

/-- One `close_position` call preserves the position-map invariants. -/
theorem close_position_preserves_PosInv (b : Broker) (symbol : String) (p : ℚ)
    (hb : PosInv b) : PosInv (close_position b symbol p).2 := by
  unfold close_position
  cases hl : b.positions.lookup symbol with
  | none => exact hb
  | some pos =>
      exact place_order_preserves_PosInv b symbol "SELL" pos.quantity p none hb
        (hb.2 _ (mem_of_lookup_eq_some hl))

/-! ### Claim C1 — equity-mark conservation in backtest replay -/

/-- C1 (amended): at every bar of the replay exactly one equity point is
appended to the equity curve, in input order, and its value is
`cash + (position_qty × close if LONG else 0)` rounded to two decimal
places — hence within 0.005 of the exact mark (the claim's 1e-6 tolerance
does not survive the two-decimal rounding; see the counterexample). -/
theorem equity_mark_conservation (cfg : BTConfig) (symbol : String)
    (sigs : List (String × Signal)) (st₀ : BTState) (bars : List Bar) :
    (replayBars cfg symbol sigs st₀ bars).equity_curve.length =
        st₀.equity_curve.length + bars.length ∧
    ∀ (st : BTState) (b : Bar),
      (stepBar cfg symbol sigs st b).equity_curve =
        st.equity_curve ++
          [⟨b.ts, roundTo 2 (markOf
            (tradePhase cfg symbol st b.ts b.close (sigFor sigs b.ts)) b.close)⟩] ∧
      |roundTo 2 (markOf
            (tradePhase cfg symbol st b.ts b.close (sigFor sigs b.ts)) b.close) -
          markOf (tradePhase cfg symbol st b.ts b.close (sigFor sigs b.ts)) b.close|
        ≤ 1/200 := by
  refine ⟨replayBars_curve_length cfg symbol sigs st₀ bars,
    fun st b => ⟨stepBar_equity_curve cfg symbol sigs st b, ?_⟩⟩
  calc |roundTo 2 (markOf (tradePhase cfg symbol st b.ts b.close (sigFor sigs b.ts)) b.close) -
        markOf (tradePhase cfg symbol st b.ts b.close (sigFor sigs b.ts)) b.close|
      ≤ 1 / (2 * 10 ^ 2) := abs_roundTo_sub_le 2 _
    _ = 1/200 := by norm_num

/-- C1 counterexample: with initial capital 100.001 and a single bar with
no signals, the engine stays flat, the true mark is 100.001, but the
recorded equity point is the rounded 100 — off by 0.001 > 1e-6, so the
claimed 1e-6 tolerance between the recorded value and cash plus market
value fails. -/
theorem equity_mark_tolerance_cex :
    (replayBars ⟨100 + 1/1000, 1/1000, 5/10000, 2/100, 3/100⟩ "X" []
        (initBT (100 + 1/1000)) [⟨"t0", 50⟩]).equity_curve =
      [⟨"t0", 100⟩] ∧
    markOf (replayBars ⟨100 + 1/1000, 1/1000, 5/10000, 2/100, 3/100⟩ "X" []
        (initBT (100 + 1/1000)) [⟨"t0", 50⟩]) 50 = 100 + 1/1000 ∧
    ¬ |(100 : ℚ) - (100 + 1/1000)| ≤ 1/1000000 := by
  refine ⟨?_, ?_, ?_⟩
  · norm_num [replayBars, stepBar, tradePhase, sellExit, buyEntry, markOf, sigFor,
      initBT, roundTo, roundHalfEven]
  · norm_num [replayBars, stepBar, tradePhase, sellExit, buyEntry, markOf, sigFor,
      initBT, roundTo, roundHalfEven]
  · rw [show |(100 : ℚ) - (100 + 1/1000)| = 1/1000 by
      rw [abs_sub_comm]; rw [abs_of_nonneg] <;> norm_num]
    norm_num

/-! ### Claim C2 — stop-loss precedence over same-bar SELL signals -/

/-- C2: whenever the engine is LONG and the bar's close is at or below
`entry_price × (1 − stop_loss_pct)`, the trade phase appends exactly one
closed trade — the forced stop-loss exit at this bar's close with slippage
and commission — whatever the bar's signal is; in particular a same-bar
SELL signal cannot produce a second exit, because the stop-loss check runs
first and leaves the engine flat. -/
theorem stop_loss_precedence (cfg : BTConfig) (symbol : String) (st : BTState)
    (ts : String) (close : ℚ) (sig : Signal)
    (hq : 0 < st.position_qty)
    (hc : close ≤ st.entry_price * (1 - cfg.stop_loss_pct)) :
    ∃ tr : BacktestTrade,
      (tradePhase cfg symbol st ts close sig).trades = st.trades ++ [tr] ∧
      tr.exit_price = roundTo 4 (close * (1 - cfg.slippage_pct)) ∧
      tr.exit_time = ts ∧
      tr.commission =
        roundTo 2 (close * (1 - cfg.slippage_pct) * st.position_qty * cfg.commission_pct) := by
  have hcond : 0 < st.position_qty ∧ close ≤ st.entry_price * (1 - cfg.stop_loss_pct) :=
    ⟨hq, hc⟩
  refine ⟨⟨symbol, "BUY", roundTo 4 st.entry_price,
    roundTo 4 (close * (1 - cfg.slippage_pct)), roundTo 6 st.position_qty,
    st.entry_time, ts,
    roundTo 2 ((close * (1 - cfg.slippage_pct) - st.entry_price) * st.position_qty -
      close * (1 - cfg.slippage_pct) * st.position_qty * cfg.commission_pct),
    roundTo 2 (close * (1 - cfg.slippage_pct) * st.position_qty * cfg.commission_pct),
    roundTo 6 (if st.entry_price = 0 then 0
      else (close * (1 - cfg.slippage_pct) - st.entry_price) / st.entry_price)⟩,
    ?_, rfl, rfl, rfl⟩
  unfold tradePhase
  simp only [if_pos hcond]
  cases sig
  · simp [sellExit_position_qty, buyEntry_trades, sellExit_trades]
  · simp [sellExit_position_qty, sellExit_trades]
  · simp [sellExit_trades]

/-- C2 witness: a LONG state with entry 100 and quantity 10 hit by a bar
closing at 90 (below the 97 stop) while a SELL signal is present: exactly
one trade is appended, priced from the stop-loss exit. -/
theorem stop_loss_precedence_witness :
    ∃ tr : BacktestTrade,
      (tradePhase ⟨1000, 0, 0, 2/100, 3/100⟩ "X" ⟨900, 10, 100, "e", [], []⟩
          "t1" 90 .SELL).trades = ([] : List BacktestTrade) ++ [tr] ∧
      tr.exit_price = roundTo 4 (90 * (1 - 0)) ∧
      tr.exit_time = "t1" ∧
      tr.commission = roundTo 2 (90 * (1 - 0) * 10 * 0) :=
  stop_loss_precedence ⟨1000, 0, 0, 2/100, 3/100⟩ "X" ⟨900, 10, 100, "e", [], []⟩
    "t1" 90 .SELL (by norm_num) (by norm_num)

/-! ### Claim C3 — risk-sizer contract of assess_trade -/

/-- C3 (amended): `assess_trade` implements the spec's ordered first-match
rejection checks and the minimum of the three candidate sizes floored at
zero, except that the approved assessment carries the size rounded to six
decimal places, the stop-loss price rounded to four and the risk amount
rounded to two (the claim's exact formulas hold only before this
rounding; see the counterexample). Stated for positive tracked capital
and non-negative stop-loss fraction. -/
theorem assess_trade_matches_spec (rm : RiskManager) (price : ℚ) (side : String)
    (exposure : ℚ) (count : ℕ) (hcap : 0 < rm.capital)
    (hslp : 0 ≤ rm.stop_loss_pct) :
    assess_trade rm price side exposure count =
      assess_trade_spec rm price side exposure count := by
  unfold assess_trade assess_trade_spec
  by_cases hp : price ≤ 0
  · simp [hp]
  · have hp' : 0 < price := not_le.mp hp
    simp only [if_neg hp]
    by_cases hcnt : rm.max_open_positions ≤ count
    · simp [hcnt]
    · simp only [if_neg hcnt]
      rw [if_pos hcap]
      by_cases hexp : rm.max_total_exposure ≤ exposure / rm.capital
      · simp [hexp]
      · simp only [if_neg hexp]
        have hsd : (if 0 < price * rm.stop_loss_pct
              then rm.capital * rm.risk_per_trade / (price * rm.stop_loss_pct) else 0)
            = rm.capital * rm.risk_per_trade / (price * rm.stop_loss_pct) := by
          rcases eq_or_lt_of_le hslp with h | h
          · rw [← h, mul_zero]; simp
          · rw [if_pos (mul_pos hp' h)]
        rw [hsd, if_pos hp', if_pos hp']

/-- C3 witness: with the default limits, capital 100000 and price 3 the
code assessment and the spec assessment agree. -/
theorem assess_trade_matches_spec_witness :
    assess_trade ⟨100000, 2/100, 3/100, 1/10, 10, 4/5⟩ 3 "BUY" 0 0 =
      assess_trade_spec ⟨100000, 2/100, 3/100, 1/10, 10, 4/5⟩ 3 "BUY" 0 0 :=
  assess_trade_matches_spec ⟨100000, 2/100, 3/100, 1/10, 10, 4/5⟩ 3 "BUY" 0 0
    (by norm_num) (by norm_num)

/-- C3 counterexample: at price 3 the minimum of the three candidate sizes
is 10000/3, but the approved assessment carries it rounded to six decimal
places, so the returned position size is not the exact minimum the claim
states. -/
theorem assess_trade_rounding_cex :
    (assess_trade ⟨100000, 2/100, 3/100, 1/10, 10, 4/5⟩ 3 "BUY" 0 0).approved = true ∧
    (assess_trade ⟨100000, 2/100, 3/100, 1/10, 10, 4/5⟩ 3 "BUY" 0 0).position_size ≠
      min (min (100000 * (2/100) / (3 * (3/100))) (100000 * (1/10) / 3))
        ((4/5 * 100000 - 0) / 3) := by
  constructor
  · norm_num [assess_trade, roundTo, roundHalfEven, min_def]
  · norm_num [assess_trade, roundTo, roundHalfEven, min_def]

/-! ### Claim C4 — BUY rejection and atomicity in the paper broker -/

/-- C4: a BUY order is REJECTED exactly when the slipped notional plus
commission exceeds cash, and a rejected BUY leaves the whole broker state
(cash, positions, trade log) unchanged. -/
theorem buy_rejection_atomic (b : Broker) (symbol : String) (q p : ℚ)
    (sl : Option ℚ) :
    ((place_order b symbol "BUY" q p sl).1.status = "REJECTED" ↔
      b.cash < p * (1 + b.slippage_pct) * q +
        p * (1 + b.slippage_pct) * q * b.commission_pct) ∧
    ((place_order b symbol "BUY" q p sl).1.status = "REJECTED" →
      (place_order b symbol "BUY" q p sl).2 = b) := by
  unfold place_order
  rw [show pyUpper "BUY" = "BUY" from rfl]
  simp only [if_pos rfl, reduceIte]
  by_cases hc : b.cash < p * (1 + b.slippage_pct) * q +
      p * (1 + b.slippage_pct) * q * b.commission_pct
  · rw [if_pos hc]
    exact ⟨by simpa using hc, fun _ => rfl⟩
  · rw [if_neg hc]
    constructor
    · cases hl : b.positions.lookup symbol <;> simp [hl, hc]
    · cases hl : b.positions.lookup symbol <;> simp [hl]

/-- C4 witness: the claim's scenario — cash 100, BUY 10 at 50 (notional
500) is REJECTED and the account is unchanged, cash still 100. -/
theorem buy_rejection_atomic_witness :
    (place_order ⟨100, 100, 0, 0, [], []⟩ "X" "BUY" 10 50 none).1.status = "REJECTED" ∧
    (place_order ⟨100, 100, 0, 0, [], []⟩ "X" "BUY" 10 50 none).2 =
      ⟨100, 100, 0, 0, [], []⟩ := by
  have h := buy_rejection_atomic ⟨100, 100, 0, 0, [], []⟩ "X" 10 50 none
  have hrej := h.1.mpr (by show (100:ℚ) < 50 * (1+0) * 10 + 50 * (1+0) * 10 * 0; norm_num)
  exact ⟨hrej, h.2 hrej⟩

/-! ### Claim C5 — SELL semantics in the paper broker -/

/-- C5: a SELL with no open position for the symbol is REJECTED and leaves
the state unchanged; otherwise the sold quantity is the minimum of the
requested and open quantities, cash is credited the slipped proceeds minus
commission, and the position entry is deleted when the residual quantity
is at most 1e-9, else kept with the reduced quantity. (Commission is the
code's `fill_price × requested_quantity × commission_pct`.) Stated for a
broker whose position keys are duplicate-free, which every reachable
broker state satisfies. -/
theorem sell_semantics (b : Broker) (symbol : String) (q p : ℚ) (sl : Option ℚ)
    (hnd : (b.positions.map Prod.fst).Nodup) :
    (b.positions.lookup symbol = none →
      (place_order b symbol "SELL" q p sl).1.status = "REJECTED" ∧
      (place_order b symbol "SELL" q p sl).2 = b) ∧
    ∀ pos : OpenPosition, b.positions.lookup symbol = some pos →
      (place_order b symbol "SELL" q p sl).1.status = "FILLED" ∧
      (place_order b symbol "SELL" q p sl).2.cash =
        b.cash + (p * (1 - b.slippage_pct) * min q pos.quantity -
          p * (1 - b.slippage_pct) * q * b.commission_pct) ∧
      (pos.quantity - min q pos.quantity ≤ 1/1000000000 →
        (place_order b symbol "SELL" q p sl).2.positions.lookup symbol = none) ∧
      (1/1000000000 < pos.quantity - min q pos.quantity →
        (place_order b symbol "SELL" q p sl).2.positions.lookup symbol =
          some { pos with quantity := pos.quantity - min q pos.quantity }) := by
  have hs : pyUpper "SELL" = "SELL" := rfl
  unfold place_order
  simp only [hs, reduceIte]
  constructor
  · intro hnone; rw [hnone]; exact ⟨rfl, rfl⟩
  · intro pos hpos
    rw [hpos]
    refine ⟨rfl, rfl, fun hres => ?_, fun hres => ?_⟩
    · simp only [if_pos hres]
      exact lookup_dictErase_self hnd
    · simp only [if_neg (not_le.mpr hres)]
      exact lookup_dictSet_self _ _ _

/-- C5 witness: selling 4 of an open 10-lot fills, and the position stays
with the reduced quantity. -/
theorem sell_semantics_witness :
    (place_order ⟨0, 0, 0, 0, [("X", ⟨"X", "BUY", 10, 100, 100, none⟩)], []⟩
        "X" "SELL" 4 50 none).1.status = "FILLED" ∧
    (place_order ⟨0, 0, 0, 0, [("X", ⟨"X", "BUY", 10, 100, 100, none⟩)], []⟩
        "X" "SELL" 4 50 none).2.positions.lookup "X" =
      some ⟨"X", "BUY", 10 - min 4 10, 100, 100, none⟩ := by
  have h := (sell_semantics ⟨0, 0, 0, 0, [("X", ⟨"X", "BUY", 10, 100, 100, none⟩)], []⟩
    "X" 4 50 none (by simp)).2 ⟨"X", "BUY", 10, 100, 100, none⟩ rfl
  exact ⟨h.1, h.2.2.2 (by show (1:ℚ)/1000000000 < 10 - min 4 10; norm_num)⟩

/-! ### Claim C6 — weighted-average re-entry -/

/-- C6: a filled BUY on a symbol with an existing open position merges
into it: the new entry price is the volume-weighted average
`(old_entry × old_qty + fill_price × qty) / (old_qty + qty)` and the new
quantity is the sum. -/
theorem weighted_average_reentry (b : Broker) (symbol : String) (q p : ℚ)
    (sl : Option ℚ) (pos : OpenPosition)
    (hpos : b.positions.lookup symbol = some pos)
    (hcash : p * (1 + b.slippage_pct) * q +
      p * (1 + b.slippage_pct) * q * b.commission_pct ≤ b.cash) :
    (place_order b symbol "BUY" q p sl).1.status = "FILLED" ∧
    (place_order b symbol "BUY" q p sl).2.positions.lookup symbol =
      some { pos with
        entry_price := (pos.entry_price * pos.quantity +
          p * (1 + b.slippage_pct) * q) / (pos.quantity + q)
        quantity := pos.quantity + q
        stop_loss := sl } := by
  have hb : pyUpper "BUY" = "BUY" := rfl
  unfold place_order
  simp only [hb, reduceIte]
  rw [if_neg (not_lt.mpr hcash), hpos]
  exact ⟨rfl, lookup_dictSet_self _ _ _⟩

/-- C6 witness: the claim's scenario with slippage 0 — BUY 10 at 100 then
BUY 10 at 120 on the same symbol yields one position with quantity 20 and
entry price 110 (stated from the post-first-fill state). -/
theorem weighted_average_reentry_witness :
    (place_order ⟨9000, 10000, 0, 0, [("S", ⟨"S", "BUY", 10, 100, 100, none⟩)], []⟩
        "S" "BUY" 10 120 none).1.status = "FILLED" ∧
    (place_order ⟨9000, 10000, 0, 0, [("S", ⟨"S", "BUY", 10, 100, 100, none⟩)], []⟩
        "S" "BUY" 10 120 none).2.positions.lookup "S" =
      some ⟨"S", "BUY", 20, 110, 100, none⟩ := by
  have h := weighted_average_reentry
    ⟨9000, 10000, 0, 0, [("S", ⟨"S", "BUY", 10, 100, 100, none⟩)], []⟩
    "S" 10 120 none ⟨"S", "BUY", 10, 100, 100, none⟩ rfl
    (by show (120:ℚ) * (1 + 0) * 10 + 120 * (1 + 0) * 10 * 0 ≤ 9000; norm_num)
  refine ⟨h.1, h.2.trans ?_⟩
  norm_num [OpenPosition.mk.injEq]

/-! ### Claim C7 — position-map invariants of the paper broker -/

/-- C7: after any sequence of `place_order` and `close_position` calls
whose requested order quantities are positive, starting from a state
satisfying the invariants, at most one open position exists per symbol
(duplicate-free keys) and every existing position entry has quantity
strictly greater than zero. -/
theorem position_map_invariants (b : Broker) (ops : List BrokerOp)
    (hb : PosInv b) (hops : ∀ op ∈ ops, opQtyPos op) :
    PosInv (applyOps b ops) := by
  induction ops generalizing b with
  | nil => exact hb
  | cons op rest ih =>
      rw [applyOps, List.foldl_cons]
      have hop := hops op (List.mem_cons_self _ _)
      have hrest : ∀ o ∈ rest, opQtyPos o := fun o ho =>
        hops o (List.mem_cons_of_mem _ ho)
      have hstep : PosInv (applyOp b op) := by
        cases op with
        | place symbol side q p sl =>
            exact place_order_preserves_PosInv b symbol side q p sl hb hop
        | close symbol p => exact close_position_preserves_PosInv b symbol p hb
      exact ih (applyOp b op) hstep hrest

/-- C7 witness: a fresh account after a BUY, a partial SELL and a close
still satisfies the position-map invariants. -/
theorem position_map_invariants_witness :
    PosInv (applyOps ⟨1000, 1000, 0, 0, [], []⟩
      [.place "X" "BUY" 5 10 none, .place "X" "SELL" 2 10 none, .close "X" 10]) :=
  position_map_invariants ⟨1000, 1000, 0, 0, [], []⟩
    [.place "X" "BUY" 5 10 none, .place "X" "SELL" 2 10 none, .close "X" 10]
    ⟨List.nodup_nil, by simp⟩ (by norm_num [opQtyPos])

/-! ### Claim C8 — win/loss classification and the profit-factor sentinel -/

/-- C8 (amended): a trade is a win iff its PnL is strictly positive and a
loss iff its PnL is ≤ 0; the profit factor is the win/loss PnL ratio when
the total absolute losing PnL is positive and the sentinel 9999.99 when
that total is zero — which happens when there are no losing trades, but
also when every losing trade has PnL exactly 0 (the case the claim's
"at least one losing trade" wording misses); a ledger of only winning
trades yields the sentinel. -/
theorem profit_factor_amended (trades : List BacktestTrade) :
    (∀ t ∈ trades, (t ∈ winsOf trades ↔ 0 < t.pnl) ∧
      (t ∈ lossesOf trades ↔ t.pnl ≤ 0)) ∧
    (0 < totalLossPnl trades →
      profit_factor trades = totalWinPnl trades / totalLossPnl trades) ∧
    (totalLossPnl trades = 0 → profit_factor trades = 9999.99) ∧
    ((∀ t ∈ trades, 0 < t.pnl) → profit_factor trades = 9999.99) := by
  refine ⟨?_, ?_, ?_, ?_⟩
  · intro t ht
    constructor
    · simp [winsOf, List.mem_filter, ht]
    · simp [lossesOf, List.mem_filter, ht]
  · intro h; rw [profit_factor, if_pos h]
  · intro h; rw [profit_factor, if_neg (by rw [h]; exact lt_irrefl 0)]
  · intro h
    have hl : lossesOf trades = [] := by
      rw [lossesOf, List.filter_eq_nil_iff]
      intro t ht
      simp [not_le.mpr (h t ht)]
    rw [profit_factor, totalLossPnl, hl]
    simp

/-- C8 witness: a one-trade ledger whose only trade won yields the
sentinel profit factor. -/
theorem profit_factor_amended_witness :
    profit_factor [⟨"X", "BUY", 100, 110, 1, "a", "b", 5, 0, 0⟩] = 9999.99 :=
  (profit_factor_amended [⟨"X", "BUY", 100, 110, 1, "a", "b", 5, 0, 0⟩]).2.2.2
    (by norm_num)

/-- C8 counterexample: a single trade with PnL exactly 0 is classified as
a losing trade, yet the profit factor is the sentinel 9999.99 and not the
claimed win/loss ratio (which evaluates to 0 here), refuting the claim
that the sentinel appears only when no losing trade exists. -/
theorem profit_factor_zero_loss_cex :
    lossesOf [⟨"X", "BUY", 100, 100, 1, "a", "b", 0, 0, 0⟩] =
      [⟨"X", "BUY", 100, 100, 1, "a", "b", 0, 0, 0⟩] ∧
    totalLossPnl [⟨"X", "BUY", 100, 100, 1, "a", "b", 0, 0, 0⟩] = 0 ∧
    profit_factor [⟨"X", "BUY", 100, 100, 1, "a", "b", 0, 0, 0⟩] = 9999.99 ∧
    totalWinPnl [⟨"X", "BUY", 100, 100, 1, "a", "b", 0, 0, 0⟩] /
        totalLossPnl [⟨"X", "BUY", 100, 100, 1, "a", "b", 0, 0, 0⟩] = 0 ∧
    (9999.99 : ℚ) ≠ 0 := by
  refine ⟨?_, ?_, ?_, ?_, ?_⟩ <;>
    norm_num [profit_factor, totalLossPnl, totalWinPnl, lossesOf, winsOf]

/-! ### Claim C9 — order-result ledger contents -/

/-- C9 (amended): `place_order` appends its order result to the trade log
exactly when the order fills; a rejected order's result is returned to the
caller but NOT appended, so the ledger holds filled results only (the
claim's "both filled and rejected" is refuted by the counterexample). -/
theorem trade_log_filled_only (b : Broker) (symbol side : String) (q p : ℚ)
    (sl : Option ℚ) :
    ((place_order b symbol side q p sl).1.status = "FILLED" →
      (place_order b symbol side q p sl).2.trade_log =
        b.trade_log ++ [(place_order b symbol side q p sl).1]) ∧
    ((place_order b symbol side q p sl).1.status = "REJECTED" →
      (place_order b symbol side q p sl).2.trade_log = b.trade_log) ∧
    ((place_order b symbol side q p sl).1.status = "FILLED" ∨
      (place_order b symbol side q p sl).1.status = "REJECTED") := by
  unfold place_order
  by_cases hside : pyUpper side = "BUY"
  · simp only [hside, reduceIte]
    by_cases hc : b.cash < p * (1 + b.slippage_pct) * q +
        p * (1 + b.slippage_pct) * q * b.commission_pct
    · rw [if_pos hc]; simp
    · rw [if_neg hc]; cases hl : b.positions.lookup symbol <;> simp [hl]
  · simp only [if_neg hside]
    cases hl : b.positions.lookup symbol <;> simp [hl]

/-- C9 witness: a filled BUY appends its result to the trade log. -/
theorem trade_log_filled_only_witness :
    (place_order ⟨1000, 1000, 0, 0, [], []⟩ "X" "BUY" 5 10 none).2.trade_log =
      [] ++ [(place_order ⟨1000, 1000, 0, 0, [], []⟩ "X" "BUY" 5 10 none).1] := by
  have hb : pyUpper "BUY" = "BUY" := rfl
  exact (trade_log_filled_only ⟨1000, 1000, 0, 0, [], []⟩ "X" "BUY" 5 10 none).1
    (by norm_num [place_order, hb])

/-- C9 counterexample: an insufficient-funds BUY is REJECTED and its
result is not appended — the trade log stays empty, refuting the claim
that every `place_order` call appends its result to the ledger. -/
theorem rejected_not_logged_cex :
    (place_order ⟨100, 100, 0, 0, [], []⟩ "X" "BUY" 10 50 none).1.status = "REJECTED" ∧
    (place_order ⟨100, 100, 0, 0, [], []⟩ "X" "BUY" 10 50 none).2.trade_log = [] := by
  have hb : pyUpper "BUY" = "BUY" := rfl
  constructor <;> norm_num [place_order, hb]

/-! ### Claim C10 — assess_trade is total at non-positive capital -/

/-- C10: when the tracked capital is ≤ 0 the guarded exposure ratio is
taken to be 1, so for every positive price, open-position count below the
limit and exposure limit at most 1 (the default is 0.80) the assessment is
the exposure-limit rejection — no division by zero occurs. -/
theorem assess_trade_nonpositive_capital (rm : RiskManager) (price : ℚ)
    (side : String) (exposure : ℚ) (count : ℕ) (hcap : rm.capital ≤ 0)
    (hp : 0 < price) (hcnt : count < rm.max_open_positions)
    (hmte : rm.max_total_exposure ≤ 1) :
    assess_trade rm price side exposure count =
      ⟨false, 0, 0, 0, "Total exposure exceeds limit"⟩ := by
  unfold assess_trade
  rw [if_neg (not_le.mpr hp), if_neg (not_le.mpr hcnt)]
  simp only []
  rw [if_neg (not_lt.mpr hcap), if_pos hmte]

/-- C10 witness: capital 0 with the default limits rejects a BUY at price
100 with the exposure-limit reason. -/
theorem assess_trade_nonpositive_capital_witness :
    assess_trade ⟨0, 2/100, 3/100, 1/10, 10, 4/5⟩ 100 "BUY" 0 0 =
      ⟨false, 0, 0, 0, "Total exposure exceeds limit"⟩ :=
  assess_trade_nonpositive_capital ⟨0, 2/100, 3/100, 1/10, 10, 4/5⟩ 100 "BUY" 0 0
    (by norm_num) (by norm_num) (by norm_num) (by norm_num)

end AlgoTrading
